import Mathlib

/-!
Verification of the riscv-python-model repository against its specification.

The definitions below are a shallow embedding of the Python sources:

* `riscvmodel/model.py`   — `State` (register file, pc / pc_update routing,
  sparse word memory with a single pending memory update slot) and
  `Model.issue`.
* `riscvmodel/insn.py`    — the `execute` bodies of the instructions the
  claims mention (JALR, LR, SC).
* `riscvmodel/isa.py` and `riscvmodel/code.py` — field extraction/packing,
  static-field matching, the instruction registry in `get_insns` order, and
  the 16/32-bit `decode` dispatch.
* `riscvmodel/variant.py` — ISA-string parsing and extension resolution.

`riscvmodel/types.py` (Register, RegisterFile, Immediate, Memory,
TraceMemory) is imported by the sources but is not part of the source tree;
those definitions are modelled from the specification and are marked
`Modelled from the spec` below.  Python integers that live in registers are
32 bits wide here (`xlen = 32`, the variant used by every claim).

The `randrange` fill used when the sparse memory materializes an absent word
is replaced by an explicit `fill` parameter.
-/

/-- Wrap an integer into a 32-bit two's complement bit pattern; this is the
`Register` arithmetic of the spec: all operators wrap modulo `2^W`. -/
def wrap32 (x : Int) : Nat := (x % (2 ^ 32 : Int)).toNat

/-- Modelled from the spec: `RegisterFile` (riscvmodel/types.py, absent from
src/).  An indexed array of registers with a map of hard-wired values and a
pending-write buffer; writes go to the pending map, reads see committed
values (or the wired constant). -/
structure RegisterFile where
  committed : Nat → Nat
  pending : Nat → Option Nat
  wired : Nat → Option Nat

/-- Modelled from the spec: `__getitem__` returns the committed register, or
the wired constant for wired indices. -/
def RegisterFile.get (rf : RegisterFile) (i : Nat) : Nat :=
  match rf.wired i with
  | some v => v
  | none => rf.committed i

/-- Modelled from the spec: `__setitem__` stores into the pending map —
except for wired indices, which are silently dropped.  Stored values wrap to
the register width. -/
def RegisterFile.set (rf : RegisterFile) (i v : Nat) : RegisterFile :=
  if (rf.wired i).isSome then rf
  else { rf with pending := fun j => if j = i then some (v % 2 ^ 32) else rf.pending j }

/-- Modelled from the spec: `commit()` applies all pending writes and clears
the buffer. -/
def RegisterFile.commitRF (rf : RegisterFile) : RegisterFile :=
  { rf with
    committed := fun i => (rf.pending i).getD (rf.committed i)
    pending := fun _ => none }

/-- The register file built by `State.__init__` (model.py line 12):
`RegisterFile(variant.intregs, 32, {0: 0x0})` — index 0 hard-wired to 0. -/
def initRF : RegisterFile :=
  ⟨fun _ => 0, fun _ => none, fun i => if i = 0 then some 0 else none⟩

/-- `State` from riscvmodel/model.py: committed `pc`, the `pc_update`
register that receives routed `pc` assignments, the sparse word-indexed
memory (`memory : word index → 32-bit word`) and the single pending memory
update slot `memory_update : (granularity, address, data)` with granularity
codes 1 (byte), 2 (halfword), 4 (word) as in `sb`/`sh`/`sw`. -/
structure MState where
  intreg : RegisterFile
  pc : Nat
  pc_update : Nat
  memory : Nat → Option Nat
  memory_update : Option (Nat × Nat × Nat)

/-- `State.__setattr__` (model.py lines 91-95): once the state is
initialized, an assignment to `pc` is routed into `pc_update`; the committed
`pc` is not touched.  `Register.set` wraps to the register width. -/
def MState.setPc (s : MState) (v : Nat) : MState :=
  { s with pc_update := v % 2 ^ 32 }

/-- `State.sb` (model.py line 82): pend a byte store, data masked to 8 bits. -/
def MState.sb (s : MState) (address data : Nat) : MState :=
  { s with memory_update := some (1, address, data &&& 0xFF) }

/-- `State.sh` (model.py line 85): pend a halfword store, data masked to 16 bits. -/
def MState.sh (s : MState) (address data : Nat) : MState :=
  { s with memory_update := some (2, address, data &&& 0xFFFF) }

/-- `State.sw` (model.py line 88): pend a word store, data masked to 32 bits. -/
def MState.sw (s : MState) (address data : Nat) : MState :=
  { s with memory_update := some (4, address, data &&& 0xFFFFFFFF) }

/-- The merged word `State.commit` (model.py lines 40-57) writes back for a
pending update `(gran, address, data)` against the current word `cur`.
Granularity 1 and 2 both use the mask `~(0xFF << (offset*8)) & 0xFFFFFFFF`
(written here as xor with the all-ones word, which is equal for these
shifts) and the shift `data << (offset*8)` with `offset = address & 3`;
granularity 4 overwrites. -/
def commitWord (gran offset cur data : Nat) : Nat :=
  if gran = 1 then
    (cur &&& (0xFFFFFFFF ^^^ (0xFF <<< (offset * 8)))) ||| (data <<< (offset * 8))
  else if gran = 2 then
    (cur &&& (0xFFFFFFFF ^^^ (0xFF <<< (offset * 8)))) ||| (data <<< (offset * 8))
  else data

/-- `State.commit` (model.py lines 40-57): commit the register file, copy
`pc_update` into `pc`, and apply the pending memory update (materializing
the containing word with `fill` in place of `randrange` when it is absent).  -/
def MState.commit (fill : Nat) (s : MState) : MState :=
  let s1 := { s with intreg := s.intreg.commitRF, pc := s.pc_update }
  match s.memory_update with
  | none => s1
  | some (gran, address, data) =>
    let base := address >>> 2
    let offset := address &&& 0x3
    let cur := (s.memory base).getD fill
    { s1 with
      memory := fun b => if b = base then some (commitWord gran offset cur data) else s.memory b
      memory_update := none }

/-- `State.reset` (model.py lines 59-60): `self.pc.set(pc)` — a direct
method call on the committed `pc` register, not an attribute assignment, so
it is not routed into `pc_update`. -/
def MState.reset (s : MState) (pc : Nat) : MState :=
  { s with pc := pc % 2 ^ 32 }

/-- `Model.reset` (model.py lines 126-127) simply delegates to
`State.reset`; the reset at the start of `Simulator.run` (sim.py line 20)
calls `Model.reset`. -/
def modelReset (s : MState) (pc : Nat) : MState :=
  s.reset pc

/-- `Model.issue` (model.py lines 107-112): `state.pc += 4` (routed into
`pc_update` by `__setattr__`), then the instruction's `execute`, then
`state.commit()`. -/
def issueM (fill : Nat) (ex : MState → MState) (s : MState) : MState :=
  MState.commit fill (ex (s.setPc (s.pc + 4)))

/-- `InstructionJALR.execute` (insn.py lines 38-40):
`intreg[rd] = pc + 4; pc = intreg[rs1] + imm`.  The second assignment is
routed into `pc_update`; no `& ~1` mask is applied to the target. -/
def execJALR (rd rs1 : Nat) (imm : Int) (s : MState) : MState :=
  let s1 := { s with intreg := s.intreg.set rd ((s.pc + 4) % 2 ^ 32) }
  s1.setPc (wrap32 ((s1.intreg.get rs1 : Int) + imm))

/-- Apply a list of register writes through `RegisterFile.set`, as an
instruction's `execute` does. -/
def applyWrites (rf : RegisterFile) (ws : List (Nat × Nat)) : RegisterFile :=
  ws.foldl (fun rf w => rf.set w.1 w.2) rf

/-- Memory write granularity of the spec's `TraceMemory` records. -/
inductive Gran
  | B
  | H
  | W
deriving DecidableEq

/-- Modelled from the spec: the `Memory` class (riscvmodel/types.py, absent
from src/; §3/§4.3): a sparse word-addressed map plus a FIFO of pending
`TraceMemory (granularity, address, data)` writes. -/
structure Memory where
  mem : Nat → Option Nat
  pending : List (Gran × Nat × Nat)

/-- Modelled from the spec: `lw(addr)` returns the word at `addr & ~3`,
i.e. `mem[addr >> 2]`, materializing an absent word (with `fill` in place of
the build's fill policy).  Returns the loaded word and the memory with the
word materialized. -/
def Memory.lwMat (m : Memory) (fill addr : Nat) : Nat × Memory :=
  let base := addr >>> 2
  let w := (m.mem base).getD fill
  (w, { m with mem := fun b => if b = base then some w else m.mem b })

/-- Modelled from the spec: `sw(addr, data)` appends a word-granularity
pending update with the data's low 32 bits; no state mutation until commit. -/
def Memory.swPend (m : Memory) (addr data : Nat) : Memory :=
  { m with pending := m.pending ++ [(Gran.W, addr, data &&& 0xFFFFFFFF)] }

/-- Modelled from the spec: one step of `Memory.commit` (§4.3): byte and
halfword updates fetch the containing word (materializing if needed), mask
out the 8/16-bit target lane and OR the data in shifted into place; word
updates overwrite. -/
def memApplyUpd (fill : Nat) (mem : Nat → Option Nat) (u : Gran × Nat × Nat) :
    Nat → Option Nat :=
  let base := u.2.1 >>> 2
  let put : Nat → Nat → Option Nat := fun d b => if b = base then some d else mem b
  match u.1 with
  | Gran.W => put u.2.2
  | Gran.B =>
    let off := u.2.1 &&& 3
    put (((mem base).getD fill &&& (0xFFFFFFFF ^^^ (0xFF <<< (off * 8)))) |||
      (u.2.2 <<< (off * 8)))
  | Gran.H =>
    let off := (u.2.1 >>> 1) &&& 1
    put (((mem base).getD fill &&& (0xFFFFFFFF ^^^ (0xFFFF <<< (off * 16)))) |||
      (u.2.2 <<< (off * 16)))

/-- Modelled from the spec: `Memory.commit` applies each pending update in
order and clears the pending list. -/
def Memory.commitMem (fill : Nat) (m : Memory) : Memory :=
  ⟨m.pending.foldl (memApplyUpd fill) m.mem, []⟩

/-- The architectural state used by the atomic instructions: the spec's
`State` record `{regfile, pc, pc_next, memory}` (§3) extended with the
per-address reservation flags of §5 (`atomic_acquire` / `atomic_release` /
`atomic_reserved`, called on `State` by insn.py but absent from src/). -/
structure AState where
  intreg : RegisterFile
  pc : Nat
  pc_next : Nat
  memory : Memory
  res : Nat → Bool

/-- Modelled from the spec: `atomic_acquire(addr)` marks the address
reserved. -/
def AState.acquire (s : AState) (a : Nat) : AState :=
  { s with res := fun x => if x = a then true else s.res x }

/-- Modelled from the spec: `atomic_release(addr)` clears the reservation. -/
def AState.release (s : AState) (a : Nat) : AState :=
  { s with res := fun x => if x = a then false else s.res x }

/-- The trailing lock bookkeeping both `InstructionLR.execute` and
`InstructionSC.execute` perform (insn.py lines 534-535 and 552-553):
`if rl: release(intreg[rs1]) elif aq: acquire(intreg[rs1])`. -/
def lockActions (rs1 : Nat) (aq rl : Bool) (s : AState) : AState :=
  if rl then s.release (s.intreg.get rs1)
  else if aq then s.acquire (s.intreg.get rs1)
  else s

/-- `InstructionLR.execute` (insn.py lines 529-535): load the word at
`intreg[rs1].unsigned()` into `rd` (a normal load, materializing with
`fill`), then perform the lock actions. -/
def execLR (rd rs1 : Nat) (aq rl : Bool) (fill : Nat) (s : AState) : AState :=
  let r := s.memory.lwMat fill (s.intreg.get rs1)
  let s1 := { s with memory := r.2, intreg := s.intreg.set rd r.1 }
  lockActions rs1 aq rl s1

/-- `InstructionSC.execute` (insn.py lines 541-553): if the address
`intreg[rs1]` is currently reserved, pend a word store of `intreg[rs2]` to
it and set `rd ← 0`; otherwise set `rd ← 1` and leave memory alone.  Then
the lock actions. -/
def execSC (rd rs1 rs2 : Nat) (aq rl : Bool) (s : AState) : AState :=
  let s1 :=
    if s.res (s.intreg.get rs1) then
      { s with
        memory := s.memory.swPend (s.intreg.get rs1) (s.intreg.get rs2)
        intreg := s.intreg.set rd 0 }
    else { s with intreg := s.intreg.set rd 1 }
  lockActions rs1 aq rl s1

/-- Commit step of the issue protocol on the spec state (§4.5 step 4):
`regfile.commit(); pc ← pc_next; memory.commit()`. -/
def AState.commitA (fill : Nat) (s : AState) : AState :=
  { s with intreg := s.intreg.commitRF, pc := s.pc_next, memory := s.memory.commitMem fill }

/-- `Model.issue` on the spec state: synthesize the linear next PC
(`pc_next ← pc + 4`), execute, commit (§4.5 Commit / Trace protocol). -/
def issueA (fill : Nat) (ex : AState → AState) (s : AState) : AState :=
  AState.commitA fill (ex { s with pc_next := (s.pc + 4) % 2 ^ 32 })

/-- Fresh state for the LR/SC scenario: zeroed registers with x0 wired,
empty memory, no reservations. -/
def a0 : AState :=
  ⟨initRF, 0, 0, ⟨fun _ => none, []⟩, fun _ => false⟩

/-- The LR/SC program of the spec's scenario 4 and of
`program/tests_atomic.py`: `lr x1,(x0) aq=1,rl=0`, then `sc x2,x0,(x0)
aq=0,rl=1`, then `sc x3,x0,(x0) aq=0,rl=1`, each issued and committed. -/
def lrscRun (fill : Nat) : AState :=
  issueA fill (execSC 3 0 0 false true)
    (issueA fill (execSC 2 0 0 false true)
      (issueA fill (execLR 1 0 true false fill) a0))

/-- A field descriptor from riscvmodel/isa.py: bit slices `(base, size)` low
to high, a left `offset` applied after concatenation, the `static` flag used
by `match`, the optional declared `value` (set by the `@isa` decorator), and
how `Instruction.decode` treats the field (`isImm`: the attribute is an
`Immediate` and is populated with `set_from_bits`; otherwise it is set to
the raw extracted bits). -/
structure BField where
  name : String
  slices : List (Nat × Nat)
  offset : Nat
  static : Bool
  value : Option Nat
  isImm : Bool
  bits : Nat
  signed : Bool
deriving DecidableEq

/-- `Instruction.extract_field` (isa.py lines 49-62): concatenate the slices
low to high into a contiguous value. -/
def extractSlices (w : Nat) : List (Nat × Nat) → Nat → Nat → Nat
  | [], _, acc => acc
  | (b, sz) :: rest, off, acc =>
    extractSlices w rest (off + sz) (acc ||| (((w >>> b) &&& (2 ^ sz - 1)) <<< off))

/-- `Instruction.extract_field`: the concatenated slices left-shifted by the
field's offset. -/
def BField.extract (f : BField) (w : Nat) : Nat :=
  (extractSlices w f.slices 0 0) <<< f.offset

/-- `Instruction.set_field` (isa.py lines 64-76): OR each slice of the value
into the word at its position. -/
def setSlices (v : Nat) : List (Nat × Nat) → Nat → Nat → Nat
  | [], _, w => w
  | (b, sz) :: rest, off, w =>
    setSlices v rest (off + sz) (w ||| (((v >>> off) &&& (2 ^ sz - 1)) <<< b))

/-- `Instruction.set_field`: slice consumption starts at the field offset. -/
def BField.setIn (f : BField) (w v : Nat) : Nat :=
  setSlices v f.slices f.offset w

/-- Modelled from the spec: `Immediate.unsigned()` (riscvmodel/types.py,
absent from src/) — the two's complement bit pattern of the value in `bits`
bits, as used by `Instruction.encode`. -/
def immUnsigned (bits : Nat) (v : Int) : Nat :=
  (v % (2 ^ bits : Int)).toNat

/-- Modelled from the spec: `Immediate.set_from_bits(v)` (riscvmodel/
types.py, absent from src/; §4.2): for signed immediates
`v_tc = (v & ~sign_mask) − (v & sign_mask)` with the top bit as sign bit;
for unsigned immediates the identity. -/
def immFromBits (bits : Nat) (signed : Bool) (v : Nat) : Int :=
  if signed then ((v &&& (2 ^ (bits - 1) - 1) : Nat) : Int) - ((v &&& 2 ^ (bits - 1) : Nat) : Int)
  else (v : Int)

/-- An instruction class as registered by the `@isa` decorator: mnemonic,
the static opcode value (`field_opcode.value`, consulted first by
`code.decode`), and the field list in `dir()` (alphabetical) order as
iterated by `get_fields`. -/
structure InsnClass where
  mnemonic : String
  opcode : Nat
  fields : List BField
deriving DecidableEq

/-- `Instruction.match` (isa.py lines 93-99): every static field extracts to
its declared value. -/
def InsnClass.matches (c : InsnClass) (w : Nat) : Bool :=
  c.fields.all fun f => !f.static || (f.extract w == f.value.getD 0)

/-- A decoded instruction: the matched class's mnemonic plus the dynamic
operands `Instruction.decode` populated, in field order.  Immediates are
signed integers, registers are their indices. -/
structure InsnVal where
  mnemonic : String
  ops : List (String × Int)
deriving DecidableEq

/-- `Instruction.decode` on one dynamic field: `set_from_bits` for an
`Immediate` attribute, the raw extracted value otherwise. -/
def opDecode (f : BField) (w : Nat) : Int :=
  if f.isImm then immFromBits f.bits f.signed (f.extract w) else (f.extract w : Int)

/-- `Instruction.decode` (isa.py lines 133-151): populate every non-static
field from the word (static fields were already checked by `match`). -/
def InsnClass.decodeFields (c : InsnClass) (w : Nat) : InsnVal :=
  ⟨c.mnemonic, c.fields.filterMap fun f =>
    if f.static then none else some (f.name, opDecode f w)⟩

/-- `Instruction.encode` (isa.py lines 153-169): start from zero; fields
with a declared value contribute that value, the rest contribute the
operand (`imm.unsigned()` for immediates). -/
def InsnClass.encodeFields (c : InsnClass) (get : String → Int) : Nat :=
  c.fields.foldl
    (fun w f =>
      match f.value with
      | some v => f.setIn w v
      | none =>
        f.setIn w (if f.isImm then immUnsigned f.bits (get f.name) else (get f.name).toNat))
    0

/-- Encode a constructed instruction: operands are looked up by field name. -/
def encodeInsn (c : InsnClass) (i : InsnVal) : Nat :=
  c.encodeFields fun n => ((i.ops.find? fun p => p.1 == n).map Prod.snd).getD 0

/-- Field constructors for the ten layouts (isa.py lines 213-219, 237-239,
292-294, 363-365, 409-411, 458-460, 501-502, 535-536).  Field lists below
are in `dir()` alphabetical order: funct3 < funct7 < imm < opcode < rd <
rs1 < rs2 < shamt. -/
def fOpcode (v : Nat) : BField := ⟨"opcode", [(0, 7)], 0, true, some v, false, 0, false⟩

/-- funct3 field, bits 12-14, static. -/
def fFunct3 (v : Nat) : BField := ⟨"funct3", [(12, 3)], 0, true, some v, false, 0, false⟩

/-- funct7 field, bits 25-31, static. -/
def fFunct7 (v : Nat) : BField := ⟨"funct7", [(25, 7)], 0, true, some v, false, 0, false⟩

/-- rd field, bits 7-11, dynamic. -/
def fRd : BField := ⟨"rd", [(7, 5)], 0, false, none, false, 0, false⟩

/-- rd field with a declared value (ecall/uret/sret/hret/mret/wfi). -/
def fRdV (v : Nat) : BField := ⟨"rd", [(7, 5)], 0, false, some v, false, 0, false⟩

/-- rs1 field, bits 15-19, dynamic. -/
def fRs1 : BField := ⟨"rs1", [(15, 5)], 0, false, none, false, 0, false⟩

/-- rs1 field with a declared value. -/
def fRs1V (v : Nat) : BField := ⟨"rs1", [(15, 5)], 0, false, some v, false, 0, false⟩

/-- rs2 field, bits 20-24, dynamic. -/
def fRs2 : BField := ⟨"rs2", [(20, 5)], 0, false, none, false, 0, false⟩

/-- I-type immediate: bits 20-31, a 12-bit signed `Immediate`. -/
def fImmI : BField := ⟨"imm", [(20, 12)], 0, false, none, true, 12, true⟩

/-- I-type immediate with a declared value (ecall/uret/…): still dynamic
(`static` stays false), so `match` ignores it while `encode` uses it. -/
def fImmIV (v : Nat) : BField := ⟨"imm", [(20, 12)], 0, false, some v, true, 12, true⟩

/-- IS-type shamt: bits 20-24, a 5-bit unsigned `Immediate`. -/
def fShamt : BField := ⟨"shamt", [(20, 5)], 0, false, none, true, 5, false⟩

/-- S-type immediate: slices bits 7-11 and 25-31, 12-bit signed. -/
def fImmS : BField := ⟨"imm", [(7, 5), (25, 7)], 0, false, none, true, 12, true⟩

/-- B-type immediate: same slices as S but with offset 1, 13-bit signed. -/
def fImmB : BField := ⟨"imm", [(7, 5), (25, 7)], 1, false, none, true, 13, true⟩

/-- U-type immediate: bits 12-31, 20-bit unsigned. -/
def fImmU : BField := ⟨"imm", [(12, 20)], 0, false, none, true, 20, false⟩

/-- J-type immediate: slices 21-30, 20, 12-19, 31 with offset 1, 21-bit
signed. -/
def fImmJ : BField := ⟨"imm", [(21, 10), (20, 1), (12, 8), (31, 1)], 1, false, none, true, 21, true⟩

/-- Build an R-type class (opcode 0b0110011 family). -/
def mkR (m : String) (op f3 f7 : Nat) : InsnClass :=
  ⟨m, op, [fFunct3 f3, fFunct7 f7, fOpcode op, fRd, fRs1, fRs2]⟩

/-- Build an I-type class. -/
def mkI (m : String) (op f3 : Nat) : InsnClass :=
  ⟨m, op, [fFunct3 f3, fImmI, fOpcode op, fRd, fRs1]⟩

/-- Build an IS-type (shift-immediate) class. -/
def mkIS (m : String) (op f3 f7 : Nat) : InsnClass :=
  ⟨m, op, [fFunct3 f3, fFunct7 f7, fOpcode op, fRd, fRs1, fShamt]⟩

/-- Build an S-type class. -/
def mkS (m : String) (op f3 : Nat) : InsnClass :=
  ⟨m, op, [fFunct3 f3, fImmS, fOpcode op, fRs1, fRs2]⟩

/-- Build a B-type class. -/
def mkB (m : String) (op f3 : Nat) : InsnClass :=
  ⟨m, op, [fFunct3 f3, fImmB, fOpcode op, fRs1, fRs2]⟩

/-- Build a U-type class. -/
def mkU (m : String) (op : Nat) : InsnClass :=
  ⟨m, op, [fImmU, fOpcode op, fRd]⟩

/-- Build a system I-type class with declared imm/rd/rs1 values
(ecall, uret, sret, hret, mret, wfi). -/
def mkSys (m : String) (imm : Nat) : InsnClass :=
  ⟨m, 0b1110011, [fFunct3 0, fImmIV imm, fOpcode 0b1110011, fRdV 0, fRs1V 0]⟩

/-- The RV32I instruction classes in the order `get_insns(variant=RV32I)`
enumerates them (depth-first over `__subclasses__()` in class-creation
order, duplicates removed keeping the first occurrence; see isa.py lines
804-828): the R-type family, then under I-type the IL loads, jalr, addi
(with the two `InstructionNOP` wrapper subclasses, which inherit mnemonic
"addi" and are therefore enumerated too), the remaining I-arithmetic, fence
and the system instructions, then IS shifts, S stores, B branches, U lui and
auipc, and J jal. -/
def rv32iInsns : List InsnClass :=
  [mkR "add" 0b0110011 0b000 0b0000000,
   mkR "sub" 0b0110011 0b000 0b0100000,
   mkR "sll" 0b0110011 0b001 0b0000000,
   mkR "slt" 0b0110011 0b010 0b0000000,
   mkR "sltu" 0b0110011 0b011 0b0000000,
   mkR "xor" 0b0110011 0b100 0b0000000,
   mkR "srl" 0b0110011 0b101 0b0000000,
   mkR "sra" 0b0110011 0b101 0b0100000,
   mkR "or" 0b0110011 0b110 0b0000000,
   mkR "and" 0b0110011 0b111 0b0000000,
   mkI "lb" 0b0000011 0b000,
   mkI "lh" 0b0000011 0b001,
   mkI "lw" 0b0000011 0b010,
   mkI "lbu" 0b0000011 0b100,
   mkI "lhu" 0b0000011 0b101,
   mkI "jalr" 0b1100111 0b000,
   mkI "addi" 0b0010011 0b000,
   mkI "addi" 0b0010011 0b000,
   mkI "addi" 0b0010011 0b000,
   mkI "slti" 0b0010011 0b010,
   mkI "sltiu" 0b0010011 0b011,
   mkI "xori" 0b0010011 0b100,
   mkI "ori" 0b0010011 0b110,
   mkI "andi" 0b0010011 0b111,
   mkI "fence" 0b0001111 0b000,
   mkSys "ecall" 0b000000000000,
   mkSys "uret" 0b000000000010,
   mkSys "sret" 0b000100000010,
   mkSys "hret" 0b001000000010,
   mkSys "mret" 0b001100000010,
   mkSys "wfi" 0b000100000101,
   ⟨"ebreak", 0b1110011, [fFunct3 0, fImmIV 1, fOpcode 0b1110011, fRd, fRs1]⟩,
   mkIS "slli" 0b0010011 0b001 0b0000000,
   mkIS "srli" 0b0010011 0b101 0b0000000,
   mkIS "srai" 0b0010011 0b101 0b0100000,
   mkS "sb" 0b0100011 0b000,
   mkS "sh" 0b0100011 0b001,
   mkS "sw" 0b0100011 0b010,
   mkB "beq" 0b1100011 0b000,
   mkB "bne" 0b1100011 0b001,
   mkB "blt" 0b1100011 0b100,
   mkB "bge" 0b1100011 0b101,
   mkB "bltu" 0b1100011 0b110,
   mkB "bgeu" 0b1100011 0b111,
   mkU "lui" 0b0110111,
   mkU "auipc" 0b0010111,
   ⟨"jal", 0b1101111, [fImmJ, fOpcode 0b1101111, fRd]⟩]

/-- A compressed instruction class as `code.decode` would need it: a match
predicate and a decoder.  The `@isa_c` decorator (isa.py lines 755-780)
discards its mnemonic/opcode/funct arguments and sets nothing on the
wrapped class, so every compressed class keeps `mnemonic = None` and
`get_insns(cls=InstructionCType)` — which only returns classes with a
mnemonic — finds none of them; the `_match` method `decode` would call does
not exist anywhere in the sources.  The compressed registry is therefore
empty. -/
structure CClass where
  mnemonic : String
  matchFn : Nat → Bool
  decodeFn : Nat → InsnVal

/-- The compressed instructions visible to `code.decode`: none (see
`CClass`). -/
def compressedInsns : List CClass := []

/-- `code.decode` (code.py lines 14-29) for the default variant RV32I: a
16-bit word (`w & 3 ≠ 3`) is matched against the compressed registry; a
32-bit word is matched against the first class whose static opcode value
equals `w & 0x7F` and whose `match(w)` passes.  No match raises
`MachineDecodeError(word)`, embedded as `Except.error word`. -/
def decodeInsn (w : Nat) : Except Nat InsnVal :=
  if w &&& 0x3 ≠ 3 then
    match compressedInsns.find? fun c => c.matchFn w with
    | some c => Except.ok (c.decodeFn w)
    | none => Except.error w
  else
    match rv32iInsns.find? fun c => c.opcode == (w &&& 0x7F) && c.matches w with
    | some c => Except.ok (c.decodeFields w)
    | none => Except.error w

/-- `Variant.G_expand` (variant.py line 33). -/
def gExpand : List String := ["I", "M", "A", "F", "D", "Zicsr", "Zifencei"]

/-- The single-letter standard extensions of `Variant.stdext` plus the `G`
alias, i.e. the alternatives of the third regex group (variant.py lines
30-32). -/
def stdExtChars : List Char := ['M', 'A', 'F', 'D', 'C', 'G']

/-- The `implies` lists of `Variant.stdext` (variant.py lines 19-25):
F implies Zicsr, D implies F, the others imply nothing. -/
def stdImplies (c : Char) : List String :=
  if c = 'F' then ["Zicsr"] else if c = 'D' then ["F"] else []

/-- Greedy match of the repeated standard-extension group: consume the
maximal run of standard-extension letters; like Python's `re`, a repeated
capture group retains only its last repetition, so only the last letter of
the run is kept (variant.py line 51 then iterates over that single
character). -/
def munchStd : List Char → Option Char → Option Char × List Char
  | [], last => (last, [])
  | c :: cs, last =>
    if c ∈ stdExtChars then munchStd cs (some c) else (last, c :: cs)

/-- Split a character list at `'_'` separators, like Python's
`str.split("_")`: an empty input gives one empty part, separators at the
edges give empty parts. -/
def splitUnd : List Char → List (List Char)
  | [] => [[]]
  | c :: cs =>
    if c = '_' then [] :: splitUnd cs
    else
      match splitUnd cs with
      | [] => [[c]]
      | r :: rs => (c :: r) :: rs

/-- Process one `_`-separated part of the Z/X tail (variant.py lines 57-64):
a part starting with `Z` looks its lower-cased name up in `stdextZ` (KeyError
— parse failure — if absent) and contributes itself (in its upper-cased
spelling) plus the (empty) implication list; a part starting with `X` looks
into `custext`, which is empty when no custom extensions were registered, so
it always fails; an empty part fails (`ext[0]` raises IndexError); any other
part is silently skipped. -/
def extsOfPart (p : List Char) : Option (List String) :=
  match p with
  | [] => none
  | c :: cs =>
    if c = 'Z' then
      if 'Z' :: cs.map Char.toLower = ['Z', 'i', 'c', 's', 'r'] ∨
          'Z' :: cs.map Char.toLower = ['Z', 'i', 'f', 'e', 'n', 'c', 'e', 'i'] then
        some [String.mk p]
      else none
    else if c = 'X' then none
    else some []

/-- Process the whole `_`-split Z/X tail. -/
def extsOfParts : List (List Char) → Option (List String)
  | [] => some []
  | p :: ps =>
    match extsOfPart p, extsOfParts ps with
    | some e, some rest => some (e ++ rest)
    | _, _ => none

/-- The leading width alternatives `32|64|128` of the ISA-string regex. -/
def parseXlen : List Char → Option (Nat × List Char)
  | '3' :: '2' :: r => some (32, r)
  | '6' :: '4' :: r => some (64, r)
  | '1' :: '2' :: '8' :: r => some (128, r)
  | _ => none

/-- The tail after the standard-extension run: either empty (no fourth
group) or a Z/X part of at least two characters (the regex requires
`(Z|X).+`); anything else fails the whole regex. -/
def parseTail : List Char → Option (Option (List Char))
  | [] => some none
  | c :: cs =>
    if (c = 'Z' ∨ c = 'X') ∧ cs ≠ [] then some (some (c :: cs))
    else none

/-- The parsed result of `Variant.__init__` (variant.py lines 35-64). -/
structure VariantData where
  xlen : Nat
  baseint : Char
  extensions : List String
deriving DecidableEq

/-- The extension set contributed by the last standard-extension letter
(variant.py lines 50-56): `G` expands to `G_expand` (only with base `I`),
any other letter contributes itself plus its direct `implies` list. -/
def extsOfStd (baseint : Char) : Option Char → Option (List String)
  | none => some []
  | some c =>
    if c = 'G' then if baseint = 'I' then some gExpand else none
    else some (c.toString :: stdImplies c)

/-- The Z/X-tail contribution: absent fourth group means no contribution,
otherwise process the `_`-split parts. -/
def extsOfTail : Option (List Char) → Option (List String)
  | none => some []
  | some t => extsOfParts (splitUnd t)

/-- Assemble the extension set of `Variant.__init__` after the regex has
matched: check the `E`-base assertion (`baseint == "I" or xlen == 32`),
then union the `G`-expansion of the base, the last standard-extension
letter's contribution, and the Z/X tail contribution. -/
def variantAssemble (xlen : Nat) (baseExts : List String) (baseint : Char)
    (g3 : Option Char) (g4 : Option (List Char)) : Option VariantData :=
  if baseint = 'I' ∨ xlen = 32 then
    match extsOfStd baseint g3, extsOfTail g4 with
    | some g3Exts, some g4Exts => some ⟨xlen, baseint, baseExts ++ g3Exts ++ g4Exts⟩
    | _, _ => none
  else none

/-- The part of `Variant.__init__` after the width: base letter
alternative, greedy standard-extension run, tail check, assembly (with `G`
expanding to `G_expand` and setting the base to `I`). -/
def variantBuild (xlen : Nat) (b : Char) (r2 : List Char) : Option VariantData :=
  if b = 'I' ∨ b = 'E' ∨ b = 'G' then
    match parseTail (munchStd r2 none).2 with
    | none => none
    | some g4 =>
      variantAssemble xlen (if b = 'G' then gExpand else [])
        (if b = 'G' then 'I' else b) (munchStd r2 none).1 g4
  else none

/-- `Variant.__init__` on an ISA string (variant.py lines 35-64) with no
custom extensions registered: upper-case the name, match
`RV(32|64|128)(I|E|G)(M|A|F|D|C|G)*((Z|X)…(_(Z|X)…)*)?`, expand `G`,
check the `E`-only-with-32-bit assertion, and union the extension
contributions.  Failure of the regex or of any assertion/lookup is `none`. -/
def variantParse (name : String) : Option VariantData :=
  match name.toList.map Char.toUpper with
  | 'R' :: 'V' :: rest =>
    match parseXlen rest with
    | some (xlen, b :: r2) => variantBuild xlen b r2
    | _ => none
  | _ => none

/-- A concrete state for the JALR claim: `pc = 0`, `x2 = 2`, everything else
zero, x0 wired. -/
def jalrState : MState :=
  ⟨⟨fun i => if i = 2 then 2 else 0, fun _ => none, fun i => if i = 0 then some 0 else none⟩,
   0, 0, fun _ => none, none⟩

/-- C1: the claim says JALR sets the pending next PC to `(rs1 + imm) & ~1`.
The code (insn.py line 40) applies no mask: executing `jalr x1, x2, 1` with
`x2 = 2` and `pc = 0` leaves the odd value `3` in `pc_update`, not the
masked `3 & ~1 = 2`; the pending `rd` is `pc + 4` as claimed. -/
theorem jalr_pending_target_unmasked :
    (execJALR 1 2 1 jalrState).intreg.pending 1 = some 4 ∧
    (execJALR 1 2 1 jalrState).pc_update = 3 ∧
    (execJALR 1 2 1 jalrState).pc_update ≠ 3 &&& 0xFFFFFFFE := by
  refine ⟨rfl, rfl, ?_⟩
  decide

/-- The byte-store scenario of the claim: word `0x40` (index `0x10`) holds
`0x11223344`; a byte store of `0xAA` to address `0x41` is pending. -/
def c2ByteState : MState :=
  ⟨initRF, 0, 0, fun b => if b = 0x10 then some 0x11223344 else none, some (1, 0x41, 0xAA)⟩

/-- The halfword failing input: word `0x40` holds `0xFFFFFFFF`; a halfword
store of `0x0000` to the aligned address `0x42` is pending. -/
def c2HalfState : MState :=
  ⟨initRF, 0, 0, fun b => if b = 0x10 then some 0xFFFFFFFF else none, some (2, 0x42, 0)⟩

/-- C2: committing the pending byte store merges the 8-bit lane as claimed
(`lw(0x40) = 0x1122AA44`), but committing a halfword store masks out only
8 bits (model.py line 54 reuses the byte mask `0xFF`), so storing `0x0000`
over `0xFFFFFFFF` at address `0x42` yields `0xFF00FFFF` where the claimed
16-bit lane merge would yield `0x0000FFFF`. -/
theorem memory_commit_byte_lane_and_halfword_mask :
    (MState.commit 0 c2ByteState).memory 0x10 = some 0x1122AA44 ∧
    (MState.commit 0 c2HalfState).memory 0x10 = some 0xFF00FFFF ∧
    (0xFF00FFFF : Nat) ≠ 0x0000FFFF := by
  refine ⟨rfl, rfl, ?_⟩
  decide

/-- C8: decoding the 32-bit word `0x00000013` scans the registry and returns
the first class whose opcode (low 7 bits) and static fields match —
`addi` with `rd = 0`, `rs1 = 0`, `imm = 0`, the canonical NOP. -/
theorem decode_nop_word :
    decodeInsn 0x00000013 = Except.ok ⟨"addi", [("imm", 0), ("rd", 0), ("rs1", 0)]⟩ := rfl

/-- C9: for every 16-bit word (low two bits not `0b11`), `decode` raises
`MachineDecodeError(word)`: the `@isa_c` decorator discards the
mnemonic/opcode/funct information it is given, so `get_insns` (which skips
classes without a mnemonic) finds no compressed instruction to scan, and
every compressed word fails. -/
theorem compressed_decode_always_fails :
    ∀ w : Nat, w &&& 0x3 ≠ 3 → decodeInsn w = Except.error w := by
  intro w h
  unfold decodeInsn
  rw [if_pos h]
  rfl

/-- Witness for `compressed_decode_always_fails`: the valid `c.li x1, 1`
encoding `0x4085` decodes to the error carrying the word. -/
theorem compressed_decode_always_fails_witness :
    (0x4085 : Nat) &&& 0x3 ≠ 3 ∧ decodeInsn 0x4085 = Except.error 0x4085 :=
  ⟨by decide, compressed_decode_always_fails 0x4085 (by decide)⟩

/-- C10: `State.reset(pc)` writes only the committed `pc` (not routed
through `pc_update`); registers (committed and pending), memory, the
pending memory update and `pc_update` are untouched, and `Model.reset` (and
hence the reset at the start of `Simulator.run`) is the same operation. -/
theorem reset_only_pc :
    ∀ (s : MState) (pc : Nat), pc < 2 ^ 32 →
      (s.reset pc).pc = pc ∧
      (s.reset pc).intreg = s.intreg ∧
      (s.reset pc).pc_update = s.pc_update ∧
      (s.reset pc).memory = s.memory ∧
      (s.reset pc).memory_update = s.memory_update ∧
      modelReset s pc = s.reset pc := by
  intro s pc h
  exact ⟨Nat.mod_eq_of_lt h, rfl, rfl, rfl, rfl, rfl⟩

/-- A plain concrete state used by witnesses. -/
def mst0 : MState := ⟨initRF, 0, 0, fun _ => none, none⟩

/-- Witness for `reset_only_pc` at `pc = 16` on a concrete state. -/
theorem reset_only_pc_witness :
    (16 : Nat) < 2 ^ 32 ∧
      ((mst0.reset 16).pc = 16 ∧
       (mst0.reset 16).intreg = mst0.intreg ∧
       (mst0.reset 16).pc_update = mst0.pc_update ∧
       (mst0.reset 16).memory = mst0.memory ∧
       (mst0.reset 16).memory_update = mst0.memory_update ∧
       modelReset mst0 16 = mst0.reset 16) :=
  ⟨by decide, reset_only_pc mst0 16 (by decide)⟩

/-- A register-file write never changes the wired map. -/
theorem RegisterFile.set_wired (rf : RegisterFile) (i v : Nat) :
    (rf.set i v).wired = rf.wired := by
  unfold RegisterFile.set
  split <;> rfl

/-- A register-file write never changes the committed values. -/
theorem RegisterFile.set_committed (rf : RegisterFile) (i v : Nat) :
    (rf.set i v).committed = rf.committed := by
  unfold RegisterFile.set
  split <;> rfl

/-- A register-file write leaves the pending slot of a wired index alone:
a write to the wired index itself is dropped, a write elsewhere does not
touch it. -/
theorem RegisterFile.set_pending_wired (rf : RegisterFile) (i v j : Nat)
    (h : (rf.wired j).isSome) : (rf.set i v).pending j = rf.pending j := by
  by_cases hw : (rf.wired i).isSome
  · simp [RegisterFile.set, hw]
  · have hji : j ≠ i := fun e => hw (e ▸ h)
    simp [RegisterFile.set, hw, hji]

/-- `applyWrites` distributes over cons. -/
theorem applyWrites_cons (rf : RegisterFile) (w : Nat × Nat) (ws : List (Nat × Nat)) :
    applyWrites rf (w :: ws) = applyWrites (rf.set w.1 w.2) ws := rfl

/-- A sequence of writes never changes the wired map. -/
theorem applyWrites_wired :
    ∀ (ws : List (Nat × Nat)) (rf : RegisterFile), (applyWrites rf ws).wired = rf.wired
  | [], _ => rfl
  | w :: ws, rf => by
    rw [applyWrites_cons, applyWrites_wired ws, RegisterFile.set_wired]

/-- A sequence of writes never changes the committed values. -/
theorem applyWrites_committed :
    ∀ (ws : List (Nat × Nat)) (rf : RegisterFile), (applyWrites rf ws).committed = rf.committed
  | [], _ => rfl
  | w :: ws, rf => by
    rw [applyWrites_cons, applyWrites_committed ws, RegisterFile.set_committed]

/-- A sequence of writes never creates a pending entry at a wired index. -/
theorem applyWrites_pending_wired :
    ∀ (ws : List (Nat × Nat)) (rf : RegisterFile) (j : Nat), (rf.wired j).isSome →
      (applyWrites rf ws).pending j = rf.pending j
  | [], _, _, _ => rfl
  | w :: ws, rf, j, h => by
    rw [applyWrites_cons, applyWrites_pending_wired ws _ j
      (by rw [RegisterFile.set_wired]; exact h)]
    exact RegisterFile.set_pending_wired rf w.1 w.2 j h

/-- C6: in a register file whose index 0 is wired to 0 with no pending
write there (as built by `State.__init__`), any sequence of writes an
instruction performs leaves no pending entry at index 0, reading
`regfile[0]` after commit yields 0, and the committed entry at index 0 is
untouched by the commit: a write to the wired index never enters the
pending buffer or the committed state. -/
theorem zero_register_pinned :
    ∀ (rf : RegisterFile) (ws : List (Nat × Nat)),
      rf.wired 0 = some 0 → rf.pending 0 = none →
      (applyWrites rf ws).pending 0 = none ∧
      (applyWrites rf ws).commitRF.get 0 = 0 ∧
      (applyWrites rf ws).commitRF.committed 0 = rf.committed 0 := by
  intro rf ws hw hp
  have hpend : (applyWrites rf ws).pending 0 = none := by
    rw [applyWrites_pending_wired ws rf 0 (by rw [hw]; rfl)]
    exact hp
  refine ⟨hpend, ?_, ?_⟩
  · show RegisterFile.get _ 0 = 0
    unfold RegisterFile.get RegisterFile.commitRF
    simp only [applyWrites_wired, hw]
  · unfold RegisterFile.commitRF
    simp only [hpend, Option.getD_none, applyWrites_committed]

/-- Witness for `zero_register_pinned`: the initial register file with a
dropped write to x0 and a write to x3. -/
theorem zero_register_pinned_witness :
    initRF.wired 0 = some 0 ∧ initRF.pending 0 = none ∧
      ((applyWrites initRF [(0, 5), (3, 7)]).pending 0 = none ∧
       (applyWrites initRF [(0, 5), (3, 7)]).commitRF.get 0 = 0 ∧
       (applyWrites initRF [(0, 5), (3, 7)]).commitRF.committed 0 = initRF.committed 0) :=
  ⟨rfl, rfl, zero_register_pinned initRF [(0, 5), (3, 7)] rfl rfl⟩

/-- Commit always copies `pc_update` into the committed `pc`, whether or not
a memory update is pending. -/
theorem MState.commit_pc (fill : Nat) (s : MState) :
    (MState.commit fill s).pc = s.pc_update := by
  unfold MState.commit
  rcases s.memory_update with _ | ⟨g, a, d⟩ <;> rfl

/-- C7: a `pc` assignment is routed into `pc_update` while the committed
`pc` stays unchanged, and `Model.issue` synthesizes `pc_update = pc + 4`
before dispatch; hence for any instruction whose `execute` does not touch
`pc_update`, the committed `pc` after issue is exactly the old `pc + 4`
(modulo the 32-bit register width). -/
theorem pc_linearity :
    (∀ (s : MState) (v : Nat), (s.setPc v).pc = s.pc ∧ (s.setPc v).pc_update = v % 2 ^ 32) ∧
    ∀ (fill : Nat) (s : MState) (ex : MState → MState),
      (ex (s.setPc (s.pc + 4))).pc_update = (s.setPc (s.pc + 4)).pc_update →
      (issueM fill ex s).pc = (s.pc + 4) % 2 ^ 32 := by
  constructor
  · intro s v
    exact ⟨rfl, rfl⟩
  · intro fill s ex h
    unfold issueM
    rw [MState.commit_pc, h]
    rfl

/-- Witness for `pc_linearity`: the identity execute (an instruction that
does not assign `pc`) advances the committed `pc` of the zero state by 4. -/
theorem pc_linearity_witness :
    ((mst0.setPc 10).pc = mst0.pc ∧ (mst0.setPc 10).pc_update = 10 % 2 ^ 32) ∧
      (issueM 0 id mst0).pc = (mst0.pc + 4) % 2 ^ 32 :=
  ⟨pc_linearity.1 mst0 10, pc_linearity.2 0 mst0 id rfl⟩

/-- The trailing lock actions only touch the reservation flags. -/
theorem lockActions_memory (rs1 : Nat) (aq rl : Bool) (s : AState) :
    (lockActions rs1 aq rl s).memory = s.memory := by
  unfold lockActions AState.release AState.acquire
  split
  · rfl
  · split <;> rfl

/-- The trailing lock actions leave the register file alone. -/
theorem lockActions_intreg (rs1 : Nat) (aq rl : Bool) (s : AState) :
    (lockActions rs1 aq rl s).intreg = s.intreg := by
  unfold lockActions AState.release AState.acquire
  split
  · rfl
  · split <;> rfl

/-- C3: `SC` on a state whose target address (the value of `rs1`) is
reserved appends exactly one pending word store of `rs2`'s low 32 bits to
that address and pends `rd ← 0`; on an unreserved address it leaves the
pending memory untouched and pends `rd ← 1`.  Consequently the committed
run of `lr x1,(x0) aq=1` ; `sc x2,x0,(x0) rl=1` ; `sc x3,x0,(x0) rl=1`
ends with `x2 = 0` (success) and `x3 = 1` (reservation already released),
for every materialization fill. -/
theorem sc_reserved_semantics :
    ∀ (s : AState) (rd rs1 rs2 : Nat) (aq rl : Bool), s.intreg.wired rd = none →
      ((s.res (s.intreg.get rs1) = true →
        (execSC rd rs1 rs2 aq rl s).memory.pending =
          s.memory.pending ++ [(Gran.W, s.intreg.get rs1, s.intreg.get rs2 &&& 0xFFFFFFFF)] ∧
        (execSC rd rs1 rs2 aq rl s).intreg.pending rd = some 0) ∧
       (s.res (s.intreg.get rs1) = false →
        (execSC rd rs1 rs2 aq rl s).memory.pending = s.memory.pending ∧
        (execSC rd rs1 rs2 aq rl s).intreg.pending rd = some 1)) ∧
      (∀ fill : Nat, (lrscRun fill).intreg.get 2 = 0 ∧ (lrscRun fill).intreg.get 3 = 1) := by
  intro s rd rs1 rs2 aq rl hwired
  refine ⟨⟨?_, ?_⟩, fun fill => ⟨rfl, rfl⟩⟩
  · intro hres
    unfold execSC
    rw [hres]
    simp only [if_pos trivial, lockActions_memory, lockActions_intreg]
    constructor
    · rfl
    · simp [RegisterFile.set, hwired, Memory.swPend]
  · intro hres
    unfold execSC
    rw [hres]
    simp only [Bool.false_eq_true, if_neg (Bool.false_ne_true), lockActions_memory,
      lockActions_intreg]
    constructor
    · rfl
    · simp [RegisterFile.set, hwired]

/-- A concrete state with address 0 reserved, for the witness. -/
def aRes : AState :=
  ⟨initRF, 0, 0, ⟨fun _ => none, []⟩, fun a => a == 0⟩

/-- Witness for `sc_reserved_semantics` at a concrete reserved state and
registers `rd=5, rs1=6, rs2=7`. -/
theorem sc_reserved_semantics_witness :
    aRes.intreg.wired 5 = none ∧
      (((aRes.res (aRes.intreg.get 6) = true →
        (execSC 5 6 7 false true aRes).memory.pending =
          aRes.memory.pending ++ [(Gran.W, aRes.intreg.get 6, aRes.intreg.get 7 &&& 0xFFFFFFFF)] ∧
        (execSC 5 6 7 false true aRes).intreg.pending 5 = some 0) ∧
       (aRes.res (aRes.intreg.get 6) = false →
        (execSC 5 6 7 false true aRes).memory.pending = aRes.memory.pending ∧
        (execSC 5 6 7 false true aRes).intreg.pending 5 = some 1)) ∧
      (∀ fill : Nat, (lrscRun fill).intreg.get 2 = 0 ∧ (lrscRun fill).intreg.get 3 = 1)) :=
  ⟨rfl, sc_reserved_semantics aRes 5 6 7 false true rfl⟩

/-- The result of parsing "RV32ID": D's direct implication F is present,
but F's own implication Zicsr is not. -/
def c4Variant : VariantData := ⟨32, 'I', ["D", "F"]⟩

/-- C4 counterexample: "RV32ID" parses, its extension set contains D (and
F), but not Zicsr — the implication closure is not transitive as claimed. -/
theorem variant_closure_not_transitive_rv32id :
    variantParse "RV32ID" = some c4Variant ∧
      "D" ∈ c4Variant.extensions ∧ "F" ∈ c4Variant.extensions ∧
      "Zicsr" ∉ c4Variant.extensions := by
  refine ⟨rfl, ?_, ?_, ?_⟩ <;> decide

/-- If the contribution of the standard-extension letter contains "D", it
also contains "F": the letter was either `G` (expanding to the whole G
set, which has F) or the letter `D` itself (whose direct implies list is
`["F"]`). -/
theorem extsOfStd_D_F (b : Char) (g3 : Option Char) (l : List String)
    (h : extsOfStd b g3 = some l) (hD : "D" ∈ l) : "F" ∈ l := by
  match g3 with
  | none =>
    cases h
    simp at hD
  | some c =>
    simp only [extsOfStd] at h
    by_cases hc : c = 'G'
    · rw [if_pos hc] at h
      by_cases hb : b = 'I'
      · rw [if_pos hb] at h
        cases h
        decide
      · rw [if_neg hb] at h
        cases h
    · rw [if_neg hc] at h
      cases h
      rcases List.mem_cons.mp hD with h1 | h2
      · have hd : c = 'D' := by
          have h3 : ("D" : String).data = c.toString.data := congrArg String.data h1
          simpa [Char.toString, String.singleton] using h3.symm
        subst hd
        decide
      · unfold stdImplies at h2
        by_cases hf : c = 'F'
        · rw [if_pos hf] at h2
          exact absurd h2 (by decide)
        · rw [if_neg hf] at h2
          by_cases hd : c = 'D'
          · rw [if_pos hd] at h2
            exact absurd h2 (by decide)
          · rw [if_neg hd] at h2
            exact absurd h2 (by decide)

/-- The contribution of one Z/X tail part never contains "D": every string
it adds starts with the letter Z. -/
theorem extsOfPart_no_D (p : List Char) (e : List String)
    (h : extsOfPart p = some e) : "D" ∉ e := by
  match p with
  | [] => cases h
  | c :: cs =>
    simp only [extsOfPart] at h
    by_cases hz : c = 'Z'
    · rw [if_pos hz] at h
      split at h
      · cases h
        intro hD
        rcases List.mem_singleton.mp hD with h1
        have h2 : ("D" : String).data = (String.mk (c :: cs)).data := congrArg String.data h1
        simp at h2
        exact absurd h2.1.symm (by rw [hz]; decide)
      · cases h
    · rw [if_neg hz] at h
      by_cases hx : c = 'X'
      · rw [if_pos hx] at h
        cases h
      · rw [if_neg hx] at h
        cases h
        simp

/-- The whole Z/X tail contribution never contains "D". -/
theorem extsOfParts_no_D :
    ∀ (ps : List (List Char)) (l : List String), extsOfParts ps = some l → "D" ∉ l
  | [], l, h => by cases h; simp
  | p :: ps, l, h => by
    simp only [extsOfParts] at h
    split at h
    · cases h
      intro hD
      rcases List.mem_append.mp hD with h1 | h2
      · exact extsOfPart_no_D p _ (by assumption) h1
      · exact extsOfParts_no_D ps _ (by assumption) h2
    · cases h

/-- The tail contribution never contains "D". -/
theorem extsOfTail_no_D (g4 : Option (List Char)) (l : List String)
    (h : extsOfTail g4 = some l) : "D" ∉ l := by
  match g4 with
  | none =>
    cases h
    simp
  | some t => exact extsOfParts_no_D _ _ h

/-- If `variantAssemble` succeeds and its base contribution is D-closed,
a variant containing D contains F. -/
theorem variantAssemble_D_F (xlen : Nat) (baseExts : List String) (baseint : Char)
    (g3 : Option Char) (g4 : Option (List Char)) (v : VariantData)
    (hbase : "D" ∈ baseExts → "F" ∈ baseExts)
    (h : variantAssemble xlen baseExts baseint g3 g4 = some v)
    (hD : "D" ∈ v.extensions) : "F" ∈ v.extensions := by
  unfold variantAssemble at h
  split at h
  · split at h
    · cases h
      rcases List.mem_append.mp hD with hD1 | hD2
      · rcases List.mem_append.mp hD1 with hD0 | hD3
        · exact List.mem_append.mpr (Or.inl (List.mem_append.mpr (Or.inl (hbase hD0))))
        · exact List.mem_append.mpr
            (Or.inl (List.mem_append.mpr (Or.inr (extsOfStd_D_F _ _ _ (by assumption) hD3))))
      · exact absurd hD2 (extsOfTail_no_D _ _ (by assumption))
    · cases h
  · cases h

/-- `variantBuild` preserves the D-implies-F property. -/
theorem variantBuild_D_F (xlen : Nat) (b : Char) (r2 : List Char) (v : VariantData)
    (h : variantBuild xlen b r2 = some v) (hD : "D" ∈ v.extensions) :
    "F" ∈ v.extensions := by
  unfold variantBuild at h
  split at h
  · split at h
    · cases h
    · refine variantAssemble_D_F _ _ _ _ _ _ ?_ h hD
      intro hDb
      by_cases hG : b = 'G'
      · rw [if_pos hG] at hDb ⊢
        decide
      · rw [if_neg hG] at hDb
        simp at hDb
  · cases h

/-- C4 (amended): the extension set of every successfully parsed ISA string
is closed under the direct implications of the extensions processed at
parse time, but only one level deep; in particular every parsed variant
containing D also contains F (though not necessarily Zicsr, as the
counterexample "RV32ID" shows). -/
theorem variant_d_implies_f :
    ∀ (s : String) (v : VariantData), variantParse s = some v →
      "D" ∈ v.extensions → "F" ∈ v.extensions := by
  intro s v h hD
  unfold variantParse at h
  split at h
  · split at h
    · exact variantBuild_D_F _ _ _ _ h hD
    · cases h
  · cases h

/-- Witness for `variant_d_implies_f` at the concrete string "RV32ID". -/
theorem variant_d_implies_f_witness :
    variantParse "RV32ID" = some c4Variant ∧ "D" ∈ c4Variant.extensions ∧
      "F" ∈ c4Variant.extensions :=
  ⟨rfl, by decide, variant_d_implies_f "RV32ID" c4Variant rfl (by decide)⟩

/-- The operands a `uret` carries: the static field values `imm = 2`,
`rd = 0`, `rs1 = 0` declared by its `@isa` decorator. -/
def uretVal : InsnVal := ⟨"uret", [("imm", 2), ("rd", 0), ("rs1", 0)]⟩

/-- The instruction `decode(encode(uret))` actually produces: an `ecall`
instance with `imm = 2`. -/
def ecallVal : InsnVal := ⟨"ecall", [("imm", 2), ("rd", 0), ("rs1", 0)]⟩

/-- C5 counterexample: encoding `uret` and decoding the result does not give
back `uret`: the system instructions share opcode `1110011` and funct3 `0`,
their distinguishing `imm`/`rd`/`rs1` values are not static fields (the
`@isa` decorator sets their `value` but not `static`, and `match` checks
only static fields), so the scan returns the earlier `ecall` class. -/
theorem codec_roundtrip_fails_uret :
    decodeInsn (encodeInsn (mkSys "uret" 0b000000000010) uretVal) = Except.ok ecallVal ∧
      ecallVal ≠ uretVal :=
  ⟨rfl, by decide⟩

/-- A witness bit above any bound of `x` reads false. -/
theorem tbSmall {x n j : Nat} (hx : x < 2 ^ n) (hj : n ≤ j) : x.testBit j = false :=
  Nat.testBit_lt_two_pow (lt_of_lt_of_le hx (Nat.pow_le_pow_right (by norm_num) hj))

/-- Field extraction `(w >>> b) &&& (2^s - 1)` recovers `v` when the bits of
`w` in the window agree with `v` and `v` fits in the window. -/
theorem extractBits (w b s v : Nat) (hv : v < 2 ^ s)
    (hbits : ∀ i, i < s → w.testBit (b + i) = v.testBit i) :
    (w >>> b) &&& (2 ^ s - 1) = v := by
  apply Nat.eq_of_testBit_eq
  intro j
  rw [Nat.testBit_and, Nat.testBit_shiftRight, Nat.testBit_two_pow_sub_one]
  by_cases hj : j < s
  · simp [hj, hbits j hj]
  · simp [hj, tbSmall hv (by omega : s ≤ j)]

/-- Bit pattern of the packed I-type word `imm <<< 20 ||| opcode |||
rd <<< 7 ||| rs1 <<< 15` for the `addi` opcode 19. -/
theorem tbW (immu rd rs1 j : Nat) :
    (immu <<< 20 ||| 19 ||| rd <<< 7 ||| rs1 <<< 15).testBit j =
      (((decide (20 ≤ j) && immu.testBit (j - 20)) || (19 : Nat).testBit j) ||
        (decide (7 ≤ j) && rd.testBit (j - 7)) || (decide (15 ≤ j) && rs1.testBit (j - 15))) := by
  simp [Nat.testBit_or, Nat.testBit_shiftLeft]

section

variable {immu rd rs1 : Nat}

/-- The packed `addi` word has low two bits `11` (a 32-bit encoding). -/
theorem exWlow (hi : immu < 4096) (hr : rd < 32) (hs : rs1 < 32) :
    (immu <<< 20 ||| 19 ||| rd <<< 7 ||| rs1 <<< 15) &&& 3 = 3 := by
  have h := extractBits (immu <<< 20 ||| 19 ||| rd <<< 7 ||| rs1 <<< 15) 0 2 3 (by norm_num) ?_
  · rw [Nat.shiftRight_zero] at h
    norm_num at h
    exact h
  · intro i hilt
    rw [Nat.zero_add, tbW]
    have h20 : ¬ (20 ≤ i) := by omega
    have h7 : ¬ (7 ≤ i) := by omega
    have h15 : ¬ (15 ≤ i) := by omega
    have : i = 0 ∨ i = 1 := by omega
    rcases this with h | h <;> subst h <;> simp <;> decide

/-- The packed `addi` word extracts opcode 19. -/
theorem exWop (hi : immu < 4096) (hr : rd < 32) (hs : rs1 < 32) :
    (immu <<< 20 ||| 19 ||| rd <<< 7 ||| rs1 <<< 15) &&& 127 = 19 := by
  have h := extractBits (immu <<< 20 ||| 19 ||| rd <<< 7 ||| rs1 <<< 15) 0 7 19 (by norm_num) ?_
  · rw [Nat.shiftRight_zero] at h
    norm_num at h
    exact h
  · intro i hilt
    rw [Nat.zero_add, tbW]
    have h20 : ¬ (20 ≤ i) := by omega
    have h15 : ¬ (15 ≤ i) := by omega
    by_cases h7 : 7 ≤ i
    · omega
    · simp [h20, h15, h7]

/-- The packed `addi` word extracts funct3 0. -/
theorem exWf3 (hi : immu < 4096) (hr : rd < 32) (hs : rs1 < 32) :
    ((immu <<< 20 ||| 19 ||| rd <<< 7 ||| rs1 <<< 15) >>> 12) &&& 7 = 0 := by
  have h := extractBits (immu <<< 20 ||| 19 ||| rd <<< 7 ||| rs1 <<< 15) 12 3 0 (by norm_num) ?_
  · norm_num at h
    exact h
  · intro i hilt
    rw [tbW, Nat.zero_testBit]
    have h20 : ¬ (20 ≤ 12 + i) := by omega
    have h15 : ¬ (15 ≤ 12 + i) := by omega
    have h7 : 7 ≤ 12 + i := by omega
    have h19 : (19 : Nat).testBit (12 + i) = false :=
      tbSmall (by norm_num : (19 : Nat) < 2 ^ 5) (by omega)
    have hrdb : rd.testBit (12 + i - 7) = false :=
      tbSmall (show rd < 2 ^ 5 by omega) (by omega)
    simp [h20, h15, h7, h19, hrdb]

/-- The packed `addi` word extracts `rd`. -/
theorem exWrd (hi : immu < 4096) (hr : rd < 32) (hs : rs1 < 32) :
    ((immu <<< 20 ||| 19 ||| rd <<< 7 ||| rs1 <<< 15) >>> 7) &&& 31 = rd := by
  have h := extractBits (immu <<< 20 ||| 19 ||| rd <<< 7 ||| rs1 <<< 15) 7 5 rd
    (show rd < 2 ^ 5 by omega) ?_
  · norm_num at h
    exact h
  · intro i hilt
    rw [tbW]
    have h20 : ¬ (20 ≤ 7 + i) := by omega
    have h15 : ¬ (15 ≤ 7 + i) := by omega
    have h7 : 7 ≤ 7 + i := by omega
    have h19 : (19 : Nat).testBit (7 + i) = false :=
      tbSmall (by norm_num : (19 : Nat) < 2 ^ 5) (by omega)
    simp [h20, h15, h7, h19, show 7 + i - 7 = i from by omega]

/-- The packed `addi` word extracts `rs1`. -/
theorem exWrs1 (hi : immu < 4096) (hr : rd < 32) (hs : rs1 < 32) :
    ((immu <<< 20 ||| 19 ||| rd <<< 7 ||| rs1 <<< 15) >>> 15) &&& 31 = rs1 := by
  have h := extractBits (immu <<< 20 ||| 19 ||| rd <<< 7 ||| rs1 <<< 15) 15 5 rs1
    (show rs1 < 2 ^ 5 by omega) ?_
  · norm_num at h
    exact h
  · intro i hilt
    rw [tbW]
    have h20 : ¬ (20 ≤ 15 + i) := by omega
    have h15 : 15 ≤ 15 + i := by omega
    have h19 : (19 : Nat).testBit (15 + i) = false :=
      tbSmall (by norm_num : (19 : Nat) < 2 ^ 5) (by omega)
    have hrdb : rd.testBit (15 + i - 7) = false :=
      tbSmall (show rd < 2 ^ 5 by omega) (by omega)
    simp [h20, h15, h19, hrdb, show 15 + i - 15 = i from by omega]

/-- The packed `addi` word extracts the immediate bit pattern. -/
theorem exWimm (hi : immu < 4096) (hr : rd < 32) (hs : rs1 < 32) :
    ((immu <<< 20 ||| 19 ||| rd <<< 7 ||| rs1 <<< 15) >>> 20) &&& 4095 = immu := by
  have h := extractBits (immu <<< 20 ||| 19 ||| rd <<< 7 ||| rs1 <<< 15) 20 12 immu
    (show immu < 2 ^ 12 by omega) ?_
  · norm_num at h
    exact h
  · intro i hilt
    rw [tbW]
    have h20 : 20 ≤ 20 + i := by omega
    have h19 : (19 : Nat).testBit (20 + i) = false :=
      tbSmall (by norm_num : (19 : Nat) < 2 ^ 5) (by omega)
    have hrdb : rd.testBit (20 + i - 7) = false :=
      tbSmall (show rd < 2 ^ 5 by omega) (by omega)
    have hrsb : rs1.testBit (20 + i - 15) = false :=
      tbSmall (show rs1 < 2 ^ 5 by omega) (by omega)
    simp [h20, h19, hrdb, hrsb, show 20 + i - 20 = i from by omega]

end

/-- Round trip of the 12-bit signed immediate: `set_from_bits` applied to
`unsigned()` is the identity on the representable range. -/
theorem immLaw (imm : Int) (h1 : -2048 ≤ imm) (h2 : imm < 2048) :
    immFromBits 12 true (immUnsigned 12 imm) = imm := by
  unfold immFromBits immUnsigned
  norm_num
  set u := (imm % 4096).toNat with hu
  have hud : (u : Int) = imm % 4096 := by omega
  have hlt : u < 4096 := by omega
  have hm : u &&& 2047 = u % 2048 := by
    have h := Nat.and_pow_two_sub_one_eq_mod u 11
    norm_num at h
    exact h
  have hp : u &&& 2048 = if u.testBit 11 then 2048 else 0 := by
    have h := Nat.and_two_pow u 11
    norm_num at h
    rw [h]
    cases hc : u.testBit 11 <;> simp
  rw [hm, hp, Nat.testBit_to_div_mod]
  norm_num
  by_cases hc : u / 2048 % 2 = 1
  · simp only [hc, decide_True, if_true]
    omega
  · simp only [hc, decide_False, if_false]
    omega

/-- The registry scan on a word whose extracted fields are those of an
`addi`: every earlier class fails on its opcode, `addi` is the first match,
and its `decode` populates `rd`, `rs1` and the sign-extended immediate. -/
theorem addiScan (W rd rs1 : Nat) (imm : Int)
    (h3 : W &&& 3 = 3) (h127 : W &&& 127 = 19) (hf3 : (W >>> 12) &&& 7 = 0)
    (hrd : (W >>> 7) &&& 31 = rd) (hrs1 : (W >>> 15) &&& 31 = rs1)
    (him : immFromBits 12 true ((W >>> 20) &&& 4095) = imm) :
    decodeInsn W = Except.ok ⟨"addi", [("imm", imm), ("rd", (rd : Int)), ("rs1", (rs1 : Int))]⟩ := by
  unfold decodeInsn
  rw [if_neg (by simp [h3])]
  rw [show W &&& 0x7F = 19 from h127]
  simp only [rv32iInsns, mkR, mkI, mkIS, mkS, mkB, mkU, mkSys, List.find?,
    InsnClass.matches, InsnClass.decodeFields, BField.extract, extractSlices,
    fFunct3, fFunct7, fImmI, fImmIV, fOpcode, fRd, fRdV, fRs1, fRs1V, fRs2, fShamt,
    fImmS, fImmB, fImmU, fImmJ, List.all_cons, List.all_nil, opDecode,
    Nat.shiftRight_zero, Nat.shiftLeft_zero, Nat.zero_or, Nat.or_zero,
    Nat.reducePow, Nat.reduceSub, Nat.reduceBEq, Bool.false_and, Bool.true_and,
    Bool.not_false, Bool.not_true, Bool.false_or, Bool.true_or, Bool.or_false,
    Bool.and_true, Bool.and_false, Option.getD_some, h127, hf3, hrd, hrs1, him,
    List.filterMap]
  simp

/-- C5 (amended): `decode(encode(i)) == i` holds for classes whose static
fields make them the first registry match of their own encodings — here
proved for every `addi` with any legal operand assignment (`rd`, `rs1`
register indices, `imm` in the signed 12-bit range); it fails for the
system instructions (`codec_roundtrip_fails_uret`). -/
theorem codec_roundtrip_addi :
    ∀ (rd rs1 : Nat) (imm : Int), rd < 32 → rs1 < 32 → -2048 ≤ imm → imm < 2048 →
      decodeInsn (encodeInsn (mkI "addi" 0b0010011 0b000)
          ⟨"addi", [("imm", imm), ("rd", (rd : Int)), ("rs1", (rs1 : Int))]⟩) =
        Except.ok ⟨"addi", [("imm", imm), ("rd", (rd : Int)), ("rs1", (rs1 : Int))]⟩ := by
  intro rd rs1 imm hr hs h1 h2
  have hi : immUnsigned 12 imm < 4096 := by
    unfold immUnsigned
    omega
  have hm1 : immUnsigned 12 imm &&& 4095 = immUnsigned 12 imm := by
    have h := Nat.and_pow_two_sub_one_eq_mod (immUnsigned 12 imm) 12
    norm_num at h
    rw [h]
    exact Nat.mod_eq_of_lt hi
  have hm2 : rd &&& 31 = rd := by
    have h := Nat.and_pow_two_sub_one_eq_mod rd 5
    norm_num at h
    rw [h]
    exact Nat.mod_eq_of_lt hr
  have hm3 : rs1 &&& 31 = rs1 := by
    have h := Nat.and_pow_two_sub_one_eq_mod rs1 5
    norm_num at h
    rw [h]
    exact Nat.mod_eq_of_lt hs
  have hm4 : (19 : Nat) &&& 127 = 19 := by decide
  have hw : encodeInsn (mkI "addi" 0b0010011 0b000)
      ⟨"addi", [("imm", imm), ("rd", (rd : Int)), ("rs1", (rs1 : Int))]⟩ =
      immUnsigned 12 imm <<< 20 ||| 19 ||| rd <<< 7 ||| rs1 <<< 15 := by
    simp [encodeInsn, InsnClass.encodeFields, mkI, BField.setIn, setSlices, fFunct3, fImmI,
      fOpcode, fRd, fRs1, hm1, hm2, hm3, hm4, List.find?]
  rw [hw]
  exact addiScan _ rd rs1 imm (exWlow hi hr hs) (exWop hi hr hs) (exWf3 hi hr hs)
    (exWrd hi hr hs) (exWrs1 hi hr hs)
    (by rw [exWimm hi hr hs]; exact immLaw imm h1 h2)

/-- Witness for `codec_roundtrip_addi` at `addi x1, x2, -5`. -/
theorem codec_roundtrip_addi_witness :
    (1 : Nat) < 32 ∧ (2 : Nat) < 32 ∧ (-2048 : Int) ≤ -5 ∧ (-5 : Int) < 2048 ∧
      decodeInsn (encodeInsn (mkI "addi" 0b0010011 0b000)
          ⟨"addi", [("imm", -5), ("rd", 1), ("rs1", 2)]⟩) =
        Except.ok ⟨"addi", [("imm", -5), ("rd", 1), ("rs1", 2)]⟩ :=
  ⟨by decide, by decide, by decide, by decide,
    codec_roundtrip_addi 1 2 (-5) (by decide) (by decide) (by decide) (by decide)⟩
